import Mathlib

/-!
Verification of the liumOS persistent-memory checkpointing core.

This file gives a shallow embedding, in Lean 4, of the data model and the
operations of the liumOS repository (src/src/execution_context.h,
src/src/scheduler.h, src/src/ring_buffer.h, src/src/virtio_net.h) and proves
or refutes the specification claims about them.

Modelling conventions:
- machine integers (uint64_t, uint16_t, int) are Nat (or Int where the C++
  type is signed), with explicit truncation where overflow matters;
- a segment owns the bytes of its physical range, modelled as a `List Nat`
  attached to the `SegmentMapping` record (the spec states each context
  exclusively owns the physical pages its mapping names);
- durability (CLFlush) is modelled where a claim needs it, by an explicit
  durable-state machine whose steps are the stores/flushes of the code.

Bodies that live in .cc files not present under src/ (SwitchContext,
ExpandHeap, CopyDataFrom, SegmentMapping::Flush, Scheduler::SwitchProcess,
CreatePageMapping, CPUContext from asm.h) are modelled from the spec; each
such definition carries a doc comment saying so.
-/

/-- Modelled from the spec: CPUContext is defined in asm.h, which is not under
src/. The spec (§3) describes it as the interrupt frame (rip, cs, rsp, ss,
rflags), control register cr3, and the remaining architectural state
(general-purpose registers, FPU/SSE), which we keep opaque in `other`. -/
structure CPUContext where
  rip : Nat
  cs : Nat
  rsp : Nat
  ss : Nat
  rflags : Nat
  cr3 : Nat
  other : Nat
  deriving Repr, DecidableEq

/-- SegmentMapping from src/src/execution_context.h lines 9-52: three 64-bit
words vaddr, paddr, map_size. The `content` field models the bytes stored at
the physical range [paddr, paddr + map_size) that the segment owns. -/
structure SegmentMapping where
  vaddr : Nat
  paddr : Nat
  map_size : Nat
  content : List Nat
  deriving Repr, DecidableEq

/-- Modelled from the spec: SegmentMapping::CopyDataFrom is declared at
execution_context.h line 33 but its body is in execution_context.cc, not under
src/. Spec §4.2: precondition `this.map_size >= src.map_size` and both paddr
non-zero; copies `src.map_size` bytes from src.paddr to this.paddr, flushing
each destination line, and accumulates the bytes copied into the counter. -/
def SegmentMapping.CopyDataFrom (dst src : SegmentMapping) (stat_copied_bytes : Nat) :
    SegmentMapping × Nat :=
  ({ dst with content := src.content.take src.map_size ++ dst.content.drop src.map_size },
   stat_copied_bytes + src.map_size)

/-- Modelled from the spec: SegmentMapping::Flush is declared at
execution_context.h line 46 with its body in execution_context.cc, not under
src/. Spec §4.2: forces every cache line of the segment's physical range back
to persistent memory and counts the flushes. We return the list of flushed
cache-line indices (line = physical address divided by 64) and the updated
counter. -/
def SegmentMapping.Flush (seg : SegmentMapping) (num_of_clflush_issued : Nat) :
    List Nat × Nat :=
  let lines := (List.range ((seg.map_size + 63) / 64)).map (fun i => seg.paddr / 64 + i)
  (lines, num_of_clflush_issued + lines.length)

/-- ProcessMappingInfo from src/src/execution_context.h lines 54-71: the four
segments code, data, stack, heap. -/
structure ProcessMappingInfo where
  code : SegmentMapping
  data : SegmentMapping
  stack : SegmentMapping
  heap : SegmentMapping
  deriving Repr, DecidableEq

/-- ProcessMappingInfo::Flush, translated from src/src/execution_context.h
lines 66-70. The source calls `code.Flush`, `data.Flush`, `heap.Flush` (in
that order) and does not call `stack.Flush`. We return the concatenated list
of flushed cache-line indices together with the counter. -/
def ProcessMappingInfo.Flush (m : ProcessMappingInfo) (num_of_clflush_issued : Nat) :
    List Nat × Nat :=
  let (l1, c1) := m.code.Flush num_of_clflush_issued
  let (l2, c2) := m.data.Flush c1
  let (l3, c3) := m.heap.Flush c2
  (l1 ++ l2 ++ l3, c3)

/-- ExecutionContext from src/src/execution_context.h lines 73-132. -/
structure ExecutionContext where
  cpu_context : CPUContext
  map_info : ProcessMappingInfo
  kernel_rsp : Nat
  heap_used_size : Nat
  deriving Repr, DecidableEq

/-- ExecutionContext::SetRegisters, translated from
src/src/execution_context.h lines 90-116: stores the interrupt frame, with
`rflags | 2`, stores cr3 and kernel_rsp, and resets heap_used_size to 0. The
other architectural state is not written (the FPU initialisation is commented
out in the source). -/
def ExecutionContext.SetRegisters (ctx : ExecutionContext)
    (rip cs rsp ss cr3 rflags kernel_rsp : Nat) : ExecutionContext :=
  { ctx with
    cpu_context :=
      { ctx.cpu_context with
        rip := rip, cs := cs, rsp := rsp, ss := ss,
        rflags := rflags ||| 2, cr3 := cr3 },
    kernel_rsp := kernel_rsp,
    heap_used_size := 0 }

/-- ExecutionContext::CopyContextFrom, translated from
src/src/execution_context.h lines 118-125: saves this context's cr3, copies
the whole CPU context from `from`, restores cr3, then copies the data and
stack segment contents via CopyDataFrom. -/
def ExecutionContext.CopyContextFrom (dst src : ExecutionContext)
    (stat_copied_bytes : Nat) : ExecutionContext × Nat :=
  let cr3 := dst.cpu_context.cr3
  let cpu := { src.cpu_context with cr3 := cr3 }
  let (d, s1) := dst.map_info.data.CopyDataFrom src.map_info.data stat_copied_bytes
  let (st, s2) := dst.map_info.stack.CopyDataFrom src.map_info.stack s1
  ({ dst with
     cpu_context := cpu,
     map_info := { dst.map_info with data := d, stack := st } }, s2)

/-- ExecutionContext::Flush, declared at src/src/execution_context.h line 117
with its body in execution_context.cc, not under src/. Modelled from the spec
(§4.3 `flush(root_page_table, &count)`) as delegating to the mapping info's
Flush, which is the flushing routine present in the header. -/
def ExecutionContext.Flush (ctx : ExecutionContext) (stat : Nat) : List Nat × Nat :=
  ctx.map_info.Flush stat

/-- RingBuffer from src/src/ring_buffer.h: a fixed array of `n` elements with
read and write cursors. The array is modelled as a function from index to
element. -/
structure RingBuffer (n : Nat) (T : Type) where
  elements : Nat → T
  readp : Nat
  writep : Nat

/-- RingBuffer::IsEmpty from src/src/ring_buffer.h line 20. -/
def RingBuffer.IsEmpty {n : Nat} {T : Type} (b : RingBuffer n T) : Bool :=
  b.readp == b.writep

/-- RingBuffer::Pop from src/src/ring_buffer.h lines 6-12: on an empty buffer
returns a default-constructed value and leaves the state unchanged; otherwise
returns elements_[readp_] and advances readp_ modulo n. -/
def RingBuffer.Pop {n : Nat} {T : Type} [Inhabited T] (b : RingBuffer n T) :
    T × RingBuffer n T :=
  if b.IsEmpty then (default, b)
  else (b.elements b.readp, { b with readp := (b.readp + 1) % n })

/-- RingBuffer::Push from src/src/ring_buffer.h lines 13-19: computes
nextp = (writep_ + 1) % n; if nextp equals readp_ the push is silently
dropped; otherwise stores the value at writep_ and advances writep_. -/
def RingBuffer.Push {n : Nat} {T : Type} (b : RingBuffer n T) (value : T) :
    RingBuffer n T :=
  let nextp := (b.writep + 1) % n
  if nextp = b.readp then b
  else { b with
         elements := fun i => if i = b.writep then value else b.elements i,
         writep := nextp }

/-- Number of elements held by the ring buffer, derived from the cursors:
with both cursors in [0, n), the buffer holds (writep + n - readp) % n
elements. -/
def RingBuffer.size {n : Nat} {T : Type} (b : RingBuffer n T) : Nat :=
  (b.writep + n - b.readp) % n

namespace Virtio

/-- Trace of one execution of the for-loop in
Virtio::Net::IPv4UDPPacket::CalcAndSetChecksum (src/src/virtio_net.h lines
86-100): `sum` accumulates the byte-swapped 16-bit word at `p` (the pointer
`p` is never advanced, so every iteration reads the same word `w0`),
`visited` records each loop index executed, and `skipped` records each
iteration in which the `if (i == 5) continue;` branch was taken. -/
structure ChecksumLoopTrace where
  sum : Nat
  visited : List Nat
  skipped : List Nat
  deriving Repr, DecidableEq

/-- Loop body of CalcAndSetChecksum for index i, translated from
src/src/virtio_net.h lines 89-95. `w0` is the 16-bit word at `p`
(version_and_ihl and dscp_and_ecn). -/
def checksumLoopStep (w0 : Nat) (t : ChecksumLoopTrace) (i : Nat) : ChecksumLoopTrace :=
  if i == 5 then
    { t with visited := t.visited ++ [i], skipped := t.skipped ++ [i] }
  else
    { t with
      sum := (t.sum + ((w0 >>> 8) ||| ((w0 <<< 8) &&& 0xff00))) % 2 ^ 32,
      visited := t.visited ++ [i] }

/-- The for-loop of CalcAndSetChecksum: `for (int i = 0; i < 5; i++)`. -/
def checksumLoop (w0 : Nat) : ChecksumLoopTrace :=
  (List.range 5).foldl (checksumLoopStep w0) ⟨0, [], []⟩

/-- CalcAndSetChecksum, translated from src/src/virtio_net.h lines 86-100:
runs the loop, then the `while (checksum >> 16)` loop (whose condition reads
the 16-bit `checksum` field, hence is always false), then truncates `sum`
into the 16-bit checksum field. -/
def CalcAndSetChecksum (w0 checksum_old : Nat) : Nat :=
  let t := checksumLoop w0
  if (checksum_old % 2 ^ 16) >>> 16 ≠ 0 then 0 else t.sum % 2 ^ 16

end Virtio

/-- Error values raised by ExpandHeap (spec §7). -/
inductive HeapError where
  | heapOverflow
  | heapUnderflow
  deriving Repr, DecidableEq

/-- Modelled from the spec: ExecutionContext::ExpandHeap is declared at
execution_context.h line 82 with its body in execution_context.cc, not under
src/. Spec §4.3: a signed adjustment of heap_used_size with an invariant
check against heap.map_size; fails with HEAP_OVERFLOW or HEAP_UNDERFLOW.
Scenario S5 fixes the boundary: growing exactly to map_size succeeds. -/
def ExecutionContext.ExpandHeap (ctx : ExecutionContext) (diff : Int) :
    Except HeapError ExecutionContext :=
  let n : Int := (ctx.heap_used_size : Int) + diff
  if n > (ctx.map_info.heap.map_size : Int) then .error .heapOverflow
  else if n < 0 then .error .heapUnderflow
  else .ok { ctx with heap_used_size := n.toNat }

/-- One ExpandHeap call as seen by the kernel state: a failing call surfaces
its error to the caller and leaves the context unchanged (spec §7: failures
are values; the caller may keep calling). -/
def ExecutionContext.stepExpandHeap (c : ExecutionContext) (d : Int) : ExecutionContext :=
  match c.ExpandHeap d with
  | .ok c' => c'
  | .error _ => c

/-- Application of a sequence of ExpandHeap calls. -/
def ExecutionContext.runExpandHeap (ctx : ExecutionContext) (ds : List Int) :
    ExecutionContext :=
  ds.foldl ExecutionContext.stepExpandHeap ctx

/-- Decides whether every intermediate partial sum of the deltas, starting
from `s`, stays within [0, cap]. -/
def heapDeltasOk (cap : Nat) (s : Int) : List Int → Bool
  | [] => true
  | d :: r =>
    let n := s + d
    decide (0 ≤ n) && decide (n ≤ (cap : Int)) && heapDeltasOk cap n r

/-- Page table modelled as a map from (byte-granular) virtual address to an
installed translation: the physical address and the attribute bits of the
covering entry, or none. -/
def PageTable : Type := Nat → Option (Nat × Nat)

/-- Present bit of a page-table entry (paging.h is not under src/; bit 0 is
the x86-64 Present bit, spec §6 page-table contract). -/
def kPageAttrPresent : Nat := 1

/-- Modelled from the spec: CreatePageMapping lives in paging.h, which is not
under src/. Spec §4.2: installs page-table entries covering
[vaddr, vaddr + map_size) mapped to [paddr, paddr + map_size) with the given
attribute bits; addresses outside the range keep their previous
translation. -/
def CreatePageMapping (pt : PageTable) (vaddr paddr map_size page_attr : Nat) :
    PageTable :=
  fun a =>
    if vaddr ≤ a ∧ a < vaddr + map_size then some (paddr + (a - vaddr), page_attr)
    else pt a

/-- SegmentMapping::Map, translated from src/src/execution_context.h lines
34-44: a null segment (paddr == 0) is skipped, otherwise CreatePageMapping is
called with attribute bits `kPageAttrPresent | page_attr`. -/
def SegmentMapping.Map (seg : SegmentMapping) (pt : PageTable) (page_attr : Nat) :
    PageTable :=
  if seg.paddr = 0 then pt
  else CreatePageMapping pt seg.vaddr seg.paddr seg.map_size (kPageAttrPresent ||| page_attr)

/-- PersistentProcessInfo, durable-state view, from
src/src/execution_context.h lines 134-169. For the crash-atomicity claim the
two ExecutionContext slots ctx_[0] and ctx_[1] are viewed as the lists of
bytes stored durably in them, and valid_ctx_idx_ is the durably stored
index. -/
structure PersistentProcessInfo where
  ctx0 : List Nat
  ctx1 : List Nat
  valid_ctx_idx : Nat
  deriving Repr, DecidableEq

/-- Durable bytes of slot i (ctx_[i]). -/
def PersistentProcessInfo.slot (p : PersistentProcessInfo) (i : Nat) : List Nat :=
  if i = 0 then p.ctx0 else p.ctx1

/-- Overwrite the durable bytes of slot i. -/
def PersistentProcessInfo.setSlot (p : PersistentProcessInfo) (i : Nat) (c : List Nat) :
    PersistentProcessInfo :=
  if i = 0 then { p with ctx0 := c } else { p with ctx1 := c }

/-- PersistentProcessInfo::SetValidContextIndex, from
src/src/execution_context.h lines 156-159: the 4-byte store of
valid_ctx_idx_ followed by CLFlush of its cache line. On the durable state
the completed store+flush updates the stored index. -/
def PersistentProcessInfo.SetValidContextIndex (p : PersistentProcessInfo) (idx : Nat) :
    PersistentProcessInfo :=
  { p with valid_ctx_idx := idx }

/-- Recovery reads ctx_[valid_ctx_idx_] (GetValidContext,
src/src/execution_context.h lines 148-151). -/
def PersistentProcessInfo.recoverCtx (p : PersistentProcessInfo) : List Nat :=
  p.slot p.valid_ctx_idx

/-- Modelled from the spec: PersistentProcessInfo::SwitchContext is declared
at execution_context.h lines 162-163 with its body in execution_context.cc,
not under src/. Spec §4.4 gives its steps; this function returns the durable
state when a crash is injected after step k, where `W` is the working-slot
image being checkpointed (the in-cache content of ctx_[w], w = 1 - v):
- k = 0: nothing durable yet;
- k = 1: after ctx_[w].Flush — the working image W is durable in slot w;
- k = 2: after the 4-byte store of valid_ctx_idx_ but before its flush —
  the durable index is still the old one (spec §4.4: a crash before the
  flush leaves the previous v intact);
- k = 3: after the CLFlush of valid_ctx_idx_ — the commit point;
- k = 3 + m: after m bytes of step 4's CopyContextFrom(ctx_[v] ← ctx_[w])
  have been written and flushed into slot v. -/
def PersistentProcessInfo.switchCrashState (p : PersistentProcessInfo)
    (W : List Nat) (k : Nat) : PersistentProcessInfo :=
  let v := p.valid_ctx_idx
  let w := 1 - v
  if k = 0 then p
  else if k ≤ 2 then p.setSlot w W
  else
    let committed := (p.setSlot w W).SetValidContextIndex w
    let m := k - 3
    committed.setSlot v (W.take m ++ (p.slot v).drop m)

/-- Status of a Process. Modelled from the spec (§3): process.h is not under
src/. -/
inductive ProcessStatus where
  | notInitialized
  | ready
  | running
  | sleeping
  | killed
  deriving Repr, DecidableEq

/-- Spec §4.5: switch_process selects among processes whose status is Running
or Ready. -/
def ProcessStatus.isSchedulable : ProcessStatus → Bool
  | .ready => true
  | .running => true
  | _ => false

/-- Scheduler state, from src/src/scheduler.h lines 22-26: the registered
processes in insertion order (process_[0..number_of_process_)), kept here as
their statuses (a process is identified with its slot index), and the index
of the current process. -/
structure Scheduler where
  procs : List ProcessStatus
  current : Nat
  deriving Repr, DecidableEq

/-- First candidate index in the given scan order whose process is
schedulable. -/
def Scheduler.findNextAux (procs : List ProcessStatus) : List Nat → Option Nat
  | [] => none
  | j :: rest =>
    if (procs.getD j .notInitialized).isSchedulable then some j
    else findNextAux procs rest

/-- Modelled from the spec: Scheduler::SwitchProcess is declared at
scheduler.h line 13 with its body in scheduler.cc, not under src/. Spec §4.5:
round-robin — scan the process table starting just after the current index,
wrapping, and pick the first process whose status is Running or Ready; ties
among ready processes are broken by insertion order. -/
def Scheduler.findNext (s : Scheduler) : Option Nat :=
  Scheduler.findNextAux s.procs
    ((List.range s.procs.length).map fun i => (s.current + 1 + i) % s.procs.length)

/-- Modelled from the spec: one switch_process call. The selected process
becomes Running and the outgoing one, if it was Running, is demoted to Ready
(register_process sets Ready and the selection treats Running and Ready
alike, spec §4.5). Returns the new scheduler state and the selected index,
none when no process is schedulable. -/
def Scheduler.SwitchProcess (s : Scheduler) : Scheduler × Option Nat :=
  match s.findNext with
  | none => (s, none)
  | some j =>
    let outgoing := s.procs.getD s.current .notInitialized
    let p1 := if outgoing = .running then s.procs.set s.current .ready else s.procs
    (⟨p1.set j .running, j⟩, some j)

/-- Indices selected by m consecutive switch_process calls. -/
def Scheduler.switchSelections (s : Scheduler) : Nat → List Nat
  | 0 => []
  | m + 1 =>
    match s.SwitchProcess with
    | (_, none) => []
    | (s', some j) => j :: s'.switchSelections m

/-! Theorems. -/

/-- C6: for every call to SetRegisters, the stored rflags is the argument
OR'd with 2 (so bit 1 is set) and heap_used_size is reset to 0, regardless of
the argument values. -/
theorem ExecutionContext.setRegisters_rflags_or_two_heap_zero
    (ctx : ExecutionContext) (rip cs rsp ss cr3 rflags kernel_rsp : Nat) :
    (ctx.SetRegisters rip cs rsp ss cr3 rflags kernel_rsp).cpu_context.rflags
        = (rflags ||| 2) ∧
    Nat.testBit
      (ctx.SetRegisters rip cs rsp ss cr3 rflags kernel_rsp).cpu_context.rflags 1
        = true ∧
    (ctx.SetRegisters rip cs rsp ss cr3 rflags kernel_rsp).heap_used_size = 0 := by
  refine ⟨rfl, ?_, rfl⟩
  show Nat.testBit (rflags ||| 2) 1 = true
  rw [Nat.testBit_lor]
  have h2 : Nat.testBit 2 1 = true := by decide
  simp [h2]

/-- C9: the checksum loop of IPv4UDPPacket::CalcAndSetChecksum runs exactly
five iterations, with i ranging over 0..4, and the comparison `if (i == 5)`
is dead: the condition is false on every iteration, so the skip branch is
never taken, whatever the packet contents. -/
theorem Virtio.checksumLoop_five_iterations_dead_branch (w0 : Nat) :
    (Virtio.checksumLoop w0).visited = [0, 1, 2, 3, 4] ∧
    (Virtio.checksumLoop w0).skipped = [] ∧
    ∀ i ∈ (Virtio.checksumLoop w0).visited, (i == 5) = false := by
  refine ⟨rfl, rfl, ?_⟩
  have h : (Virtio.checksumLoop w0).visited = [0, 1, 2, 3, 4] := rfl
  rw [h]
  decide

/-- C2 evidence: ProcessMappingInfo::Flush (execution_context.h lines 66-70)
flushes the code, data and heap segments but never the stack segment. On a
concrete ExecutionContext with four disjoint one-line segments, the flushed
cache lines are exactly those of code, data and heap, and the stack's cache
line (0x3000 / 64 = 0xC0) is absent. -/
theorem ExecutionContext.flush_omits_stack_segment :
    (ExecutionContext.Flush
      ⟨⟨0, 0, 0, 0, 2, 0, 0⟩,
       ⟨⟨0x1000, 0x1000, 64, [0]⟩, ⟨0x2000, 0x2000, 64, [1]⟩,
        ⟨0x3000, 0x3000, 64, [2]⟩, ⟨0x4000, 0x4000, 64, [3]⟩⟩,
       0, 0⟩ 0).1 = [0x40, 0x80, 0x100] ∧
    (0x3000 / 64 : Nat) ∉
      (ExecutionContext.Flush
        ⟨⟨0, 0, 0, 0, 2, 0, 0⟩,
         ⟨⟨0x1000, 0x1000, 64, [0]⟩, ⟨0x2000, 0x2000, 64, [1]⟩,
          ⟨0x3000, 0x3000, 64, [2]⟩, ⟨0x4000, 0x4000, 64, [3]⟩⟩,
         0, 0⟩ 0).1 := by
  constructor
  · rfl
  · decide

/-- C7: SegmentMapping::Map skips a null segment (paddr == 0), leaving the
page table unchanged; otherwise it installs entries covering
[vaddr, vaddr + map_size) mapped to [paddr, paddr + map_size) with the given
attribute bits plus the Present bit, and leaves every address outside the
range at its previous translation. -/
theorem SegmentMapping.map_installs_range_or_skips_null
    (seg : SegmentMapping) (pt : PageTable) (page_attr : Nat) :
    (seg.paddr = 0 → seg.Map pt page_attr = pt) ∧
    (seg.paddr ≠ 0 → ∀ a,
      (seg.vaddr ≤ a ∧ a < seg.vaddr + seg.map_size →
        seg.Map pt page_attr a
          = some (seg.paddr + (a - seg.vaddr), kPageAttrPresent ||| page_attr)) ∧
      (¬(seg.vaddr ≤ a ∧ a < seg.vaddr + seg.map_size) →
        seg.Map pt page_attr a = pt a)) := by
  constructor
  · intro h
    simp [SegmentMapping.Map, h]
  · intro h a
    constructor
    · intro hin
      simp [SegmentMapping.Map, h, CreatePageMapping, hin]
    · intro hout
      simp [SegmentMapping.Map, h, CreatePageMapping, hout]

/-- C7 witness: a concrete non-null segment installs its translation and a
concrete null segment is skipped. -/
theorem SegmentMapping.map_installs_range_or_skips_null_witness :
    (SegmentMapping.Map ⟨0x8000, 0x2000, 0x1000, []⟩ (fun _ => none) 2) 0x8010
        = some (0x2010, kPageAttrPresent ||| 2) ∧
    SegmentMapping.Map ⟨0x8000, 0, 0x1000, []⟩ (fun _ => none) 2 = (fun _ => none) := by
  constructor
  · exact ((SegmentMapping.map_installs_range_or_skips_null
      ⟨0x8000, 0x2000, 0x1000, []⟩ (fun _ => none) 2).2 (by decide) 0x8010).1
      (by constructor <;> decide)
  · exact (SegmentMapping.map_installs_range_or_skips_null
      ⟨0x8000, 0, 0x1000, []⟩ (fun _ => none) 2).1 rfl

/-- C1: checkpoint commit atomicity. For a crash injected after step k of
SwitchContext, recovery (reading ctx_[valid_ctx_idx_]) yields the old valid
context whenever the crash occurs before the commit store of valid_ctx_idx_
plus its cache-line flush (k < 3), and the new working image W otherwise;
moreover no crash point yields a recovered context mixing bytes of both
slots: the recovered bytes are always exactly the old valid slot's or exactly
the new image. -/
theorem PersistentProcessInfo.switchContext_crash_atomicity
    (p : PersistentProcessInfo) (W : List Nat) (k : Nat)
    (hv : p.valid_ctx_idx = 0 ∨ p.valid_ctx_idx = 1) :
    ((k < 3 → (p.switchCrashState W k).recoverCtx = p.slot p.valid_ctx_idx) ∧
     (3 ≤ k → (p.switchCrashState W k).recoverCtx = W)) ∧
    ((p.switchCrashState W k).recoverCtx = p.slot p.valid_ctx_idx ∨
     (p.switchCrashState W k).recoverCtx = W) := by
  have main : (k < 3 → (p.switchCrashState W k).recoverCtx = p.slot p.valid_ctx_idx) ∧
      (3 ≤ k → (p.switchCrashState W k).recoverCtx = W) := by
    rcases hv with h0 | h1
    · constructor
      · intro hk
        rcases eq_or_ne k 0 with rfl | hk0
        · simp [PersistentProcessInfo.switchCrashState, PersistentProcessInfo.recoverCtx]
        · have hk2 : k ≤ 2 := by omega
          simp [PersistentProcessInfo.switchCrashState, PersistentProcessInfo.recoverCtx,
            PersistentProcessInfo.slot, PersistentProcessInfo.setSlot, h0, hk0, hk2]
      · intro hk
        have hk0 : k ≠ 0 := by omega
        have hk2 : ¬ k ≤ 2 := by omega
        simp [PersistentProcessInfo.switchCrashState, PersistentProcessInfo.recoverCtx,
          PersistentProcessInfo.slot, PersistentProcessInfo.setSlot,
          PersistentProcessInfo.SetValidContextIndex, h0, hk0, hk2]
    · constructor
      · intro hk
        rcases eq_or_ne k 0 with rfl | hk0
        · simp [PersistentProcessInfo.switchCrashState, PersistentProcessInfo.recoverCtx]
        · have hk2 : k ≤ 2 := by omega
          simp [PersistentProcessInfo.switchCrashState, PersistentProcessInfo.recoverCtx,
            PersistentProcessInfo.slot, PersistentProcessInfo.setSlot, h1, hk0, hk2]
      · intro hk
        have hk0 : k ≠ 0 := by omega
        have hk2 : ¬ k ≤ 2 := by omega
        simp [PersistentProcessInfo.switchCrashState, PersistentProcessInfo.recoverCtx,
          PersistentProcessInfo.slot, PersistentProcessInfo.setSlot,
          PersistentProcessInfo.SetValidContextIndex, h1, hk0, hk2]
  refine ⟨main, ?_⟩
  rcases Nat.lt_or_ge k 3 with hk | hk
  · exact Or.inl (main.1 hk)
  · exact Or.inr (main.2 hk)

/-- C1 witness: for a concrete record with valid slot 0 holding [1, 2] and a
working image [9, 8], a crash at step 2 (after the commit store, before its
flush) recovers the old valid context whole. -/
theorem PersistentProcessInfo.switchContext_crash_atomicity_witness :
    ((2 < 3 → (PersistentProcessInfo.switchCrashState ⟨[1, 2], [3, 4], 0⟩ [9, 8] 2).recoverCtx
        = PersistentProcessInfo.slot ⟨[1, 2], [3, 4], 0⟩ 0) ∧
     (3 ≤ 2 → (PersistentProcessInfo.switchCrashState ⟨[1, 2], [3, 4], 0⟩ [9, 8] 2).recoverCtx
        = [9, 8])) ∧
    ((PersistentProcessInfo.switchCrashState ⟨[1, 2], [3, 4], 0⟩ [9, 8] 2).recoverCtx
        = PersistentProcessInfo.slot ⟨[1, 2], [3, 4], 0⟩ 0 ∨
     (PersistentProcessInfo.switchCrashState ⟨[1, 2], [3, 4], 0⟩ [9, 8] 2).recoverCtx
        = [9, 8]) :=
  PersistentProcessInfo.switchContext_crash_atomicity ⟨[1, 2], [3, 4], 0⟩ [9, 8] 2
    (Or.inl rfl)

/-- C3: CopyContextFrom copies the entire CPU context from the source except
cr3, which keeps the destination's prior value, copies the data and stack
segment contents, and leaves the destination's heap and code segments
unchanged. The content hypotheses state that each segment's byte list has
exactly map_size bytes and that the two data (resp. stack) segments have the
same size, as is the case for the two slots of a PersistentProcessInfo. -/
theorem ExecutionContext.copyContextFrom_frame
    (dst src : ExecutionContext) (stat : Nat)
    (hdl : src.map_info.data.content.length = src.map_info.data.map_size)
    (hdl2 : dst.map_info.data.content.length = dst.map_info.data.map_size)
    (hdm : dst.map_info.data.map_size = src.map_info.data.map_size)
    (hsl : src.map_info.stack.content.length = src.map_info.stack.map_size)
    (hsl2 : dst.map_info.stack.content.length = dst.map_info.stack.map_size)
    (hsm : dst.map_info.stack.map_size = src.map_info.stack.map_size) :
    (dst.CopyContextFrom src stat).1.cpu_context
        = { src.cpu_context with cr3 := dst.cpu_context.cr3 } ∧
    (dst.CopyContextFrom src stat).1.map_info.data.content
        = src.map_info.data.content ∧
    (dst.CopyContextFrom src stat).1.map_info.stack.content
        = src.map_info.stack.content ∧
    (dst.CopyContextFrom src stat).1.map_info.heap = dst.map_info.heap ∧
    (dst.CopyContextFrom src stat).1.map_info.code = dst.map_info.code ∧
    (dst.CopyContextFrom src stat).1.kernel_rsp = dst.kernel_rsp ∧
    (dst.CopyContextFrom src stat).1.heap_used_size = dst.heap_used_size := by
  have htake : src.map_info.data.content.take src.map_info.data.map_size
      = src.map_info.data.content := by
    rw [← hdl]; exact List.take_length _
  have hdrop : dst.map_info.data.content.drop src.map_info.data.map_size = [] := by
    rw [← hdm, ← hdl2]; exact List.drop_length _
  have htake' : src.map_info.stack.content.take src.map_info.stack.map_size
      = src.map_info.stack.content := by
    rw [← hsl]; exact List.take_length _
  have hdrop' : dst.map_info.stack.content.drop src.map_info.stack.map_size = [] := by
    rw [← hsm, ← hsl2]; exact List.drop_length _
  refine ⟨rfl, ?_, ?_, rfl, rfl, rfl, rfl⟩
  · show src.map_info.data.content.take src.map_info.data.map_size
        ++ dst.map_info.data.content.drop src.map_info.data.map_size
        = src.map_info.data.content
    rw [htake, hdrop, List.append_nil]
  · show src.map_info.stack.content.take src.map_info.stack.map_size
        ++ dst.map_info.stack.content.drop src.map_info.stack.map_size
        = src.map_info.stack.content
    rw [htake', hdrop', List.append_nil]

/-- C3 witness: the frame property evaluated on two concrete contexts. -/
theorem ExecutionContext.copyContextFrom_frame_witness :
    (ExecutionContext.CopyContextFrom
      ⟨⟨0, 0, 0, 0, 2, 77, 0⟩,
       ⟨⟨1, 1, 1, [10]⟩, ⟨2, 2, 2, [20, 21]⟩, ⟨3, 3, 1, [30]⟩, ⟨4, 4, 1, [40]⟩⟩, 0, 0⟩
      ⟨⟨5, 6, 7, 8, 9, 88, 11⟩,
       ⟨⟨1, 9, 1, [90]⟩, ⟨2, 8, 2, [91, 92]⟩, ⟨3, 7, 1, [93]⟩, ⟨4, 6, 1, [94]⟩⟩, 1, 1⟩
      0).1.cpu_context = ⟨5, 6, 7, 8, 9, 77, 11⟩ ∧
    (ExecutionContext.CopyContextFrom
      ⟨⟨0, 0, 0, 0, 2, 77, 0⟩,
       ⟨⟨1, 1, 1, [10]⟩, ⟨2, 2, 2, [20, 21]⟩, ⟨3, 3, 1, [30]⟩, ⟨4, 4, 1, [40]⟩⟩, 0, 0⟩
      ⟨⟨5, 6, 7, 8, 9, 88, 11⟩,
       ⟨⟨1, 9, 1, [90]⟩, ⟨2, 8, 2, [91, 92]⟩, ⟨3, 7, 1, [93]⟩, ⟨4, 6, 1, [94]⟩⟩, 1, 1⟩
      0).1.map_info.data.content = [91, 92] := by
  have h := ExecutionContext.copyContextFrom_frame
    ⟨⟨0, 0, 0, 0, 2, 77, 0⟩,
     ⟨⟨1, 1, 1, [10]⟩, ⟨2, 2, 2, [20, 21]⟩, ⟨3, 3, 1, [30]⟩, ⟨4, 4, 1, [40]⟩⟩, 0, 0⟩
    ⟨⟨5, 6, 7, 8, 9, 88, 11⟩,
     ⟨⟨1, 9, 1, [90]⟩, ⟨2, 8, 2, [91, 92]⟩, ⟨3, 7, 1, [93]⟩, ⟨4, 6, 1, [94]⟩⟩, 1, 1⟩
    0 rfl rfl rfl rfl rfl rfl
  exact ⟨h.1, h.2.1⟩

/-- C4: round-trip of context copy. After copy_context_from(a → b) and then
copy_context_from(b → a), the resulting a is bit-exactly equal to the
original a in the data and stack segment contents, and its CPU registers
equal the original's except (at most) cr3. The hypotheses are the copy
preconditions (destination at least as large as source in each direction,
all paddr non-zero) and well-formed contents. -/
theorem ExecutionContext.copyContextFrom_roundtrip
    (a b : ExecutionContext) (s1 s2 : Nat)
    (hal : a.map_info.data.content.length = a.map_info.data.map_size)
    (hbl : b.map_info.data.content.length = b.map_info.data.map_size)
    (hal2 : a.map_info.stack.content.length = a.map_info.stack.map_size)
    (hbl2 : b.map_info.stack.content.length = b.map_info.stack.map_size)
    (hp1 : a.map_info.data.map_size ≤ b.map_info.data.map_size)
    (hp2 : b.map_info.data.map_size ≤ a.map_info.data.map_size)
    (hp3 : a.map_info.stack.map_size ≤ b.map_info.stack.map_size)
    (hp4 : b.map_info.stack.map_size ≤ a.map_info.stack.map_size)
    (_hz1 : a.map_info.data.paddr ≠ 0) (_hz2 : b.map_info.data.paddr ≠ 0)
    (_hz3 : a.map_info.stack.paddr ≠ 0) (_hz4 : b.map_info.stack.paddr ≠ 0) :
    let b' := (b.CopyContextFrom a s1).1
    let a' := (a.CopyContextFrom b' s2).1
    a'.map_info.data.content = a.map_info.data.content ∧
    a'.map_info.stack.content = a.map_info.stack.content ∧
    { a'.cpu_context with cr3 := 0 } = { a.cpu_context with cr3 := 0 } := by
  intro b' a'
  have hdm : b.map_info.data.map_size = a.map_info.data.map_size := le_antisymm hp2 hp1
  have hsm : b.map_info.stack.map_size = a.map_info.stack.map_size := le_antisymm hp4 hp3
  have hb := ExecutionContext.copyContextFrom_frame b a s1 hal hbl hdm hal2 hbl2 hsm
  have hbd : b'.map_info.data.content = a.map_info.data.content := hb.2.1
  have hbs : b'.map_info.stack.content = a.map_info.stack.content := hb.2.2.1
  have hbdm : b'.map_info.data.map_size = b.map_info.data.map_size := rfl
  have hbsm : b'.map_info.stack.map_size = b.map_info.stack.map_size := rfl
  have ha := ExecutionContext.copyContextFrom_frame a b' s2
    (by rw [hbd, hbdm, hdm]; exact hal)
    hal (by rw [hbdm, hdm]) (by rw [hbs, hbsm, hsm]; exact hal2) hal2
    (by rw [hbsm, hsm])
  refine ⟨?_, ?_, ?_⟩
  · rw [ha.2.1, hbd]
  · rw [ha.2.2.1, hbs]
  · have h1 : b'.cpu_context = { a.cpu_context with cr3 := b.cpu_context.cr3 } := hb.1
    rw [ha.1, h1]

/-- C4 witness: the round-trip evaluated on two concrete contexts. -/
theorem ExecutionContext.copyContextFrom_roundtrip_witness :
    let a : ExecutionContext :=
      ⟨⟨1, 2, 3, 4, 5, 6, 7⟩,
       ⟨⟨1, 1, 1, [10]⟩, ⟨2, 2, 2, [20, 21]⟩, ⟨3, 3, 1, [30]⟩, ⟨4, 4, 1, [40]⟩⟩, 0, 0⟩
    let b : ExecutionContext :=
      ⟨⟨9, 9, 9, 9, 9, 9, 9⟩,
       ⟨⟨1, 5, 1, [50]⟩, ⟨2, 6, 2, [60, 61]⟩, ⟨3, 7, 1, [70]⟩, ⟨4, 8, 1, [80]⟩⟩, 1, 1⟩
    let b' := (b.CopyContextFrom a 0).1
    let a' := (a.CopyContextFrom b' 0).1
    a'.map_info.data.content = a.map_info.data.content ∧
    a'.map_info.stack.content = a.map_info.stack.content ∧
    { a'.cpu_context with cr3 := 0 } = { a.cpu_context with cr3 := 0 } :=
  ExecutionContext.copyContextFrom_roundtrip
    ⟨⟨1, 2, 3, 4, 5, 6, 7⟩,
     ⟨⟨1, 1, 1, [10]⟩, ⟨2, 2, 2, [20, 21]⟩, ⟨3, 3, 1, [30]⟩, ⟨4, 4, 1, [40]⟩⟩, 0, 0⟩
    ⟨⟨9, 9, 9, 9, 9, 9, 9⟩,
     ⟨⟨1, 5, 1, [50]⟩, ⟨2, 6, 2, [60, 61]⟩, ⟨3, 7, 1, [70]⟩, ⟨4, 8, 1, [80]⟩⟩, 1, 1⟩
    0 0 rfl rfl rfl rfl (by decide) (by decide) (by decide) (by decide)
    (by decide) (by decide) (by decide) (by decide)

/-- C10: a push onto a full RingBuffer (that is, when (writep+1) mod n equals
readp) leaves the buffer completely unchanged, silently discarding the value;
a full buffer holds exactly n - 1 elements and a successful push adds exactly
one, so the buffer never holds more than n - 1 elements; and popping an empty
buffer returns a default-constructed value without changing the state. -/
theorem RingBuffer.push_full_drop_pop_empty_default
    {T : Type} [Inhabited T] (n : Nat) (b : RingBuffer n T) (v : T)
    (hn : 0 < n) (hr : b.readp < n) (hw : b.writep < n) :
    ((b.writep + 1) % n = b.readp → b.Push v = b ∧ b.size = n - 1) ∧
    ((b.writep + 1) % n ≠ b.readp → (b.Push v).size = b.size + 1) ∧
    (b.IsEmpty = true → b.Pop = (default, b)) ∧
    b.size ≤ n - 1 := by
  refine ⟨?_, ?_, ?_, ?_⟩
  · intro hfull
    constructor
    · simp [RingBuffer.Push, hfull]
    · by_cases h1 : b.writep + 1 < n
      · have hr' : b.readp = b.writep + 1 := by rw [← hfull, Nat.mod_eq_of_lt h1]
        unfold RingBuffer.size
        rw [hr']
        have h2 : b.writep + n - (b.writep + 1) = n - 1 := by omega
        rw [h2, Nat.mod_eq_of_lt (by omega)]
      · have hwn : b.writep + 1 = n := by omega
        have hr' : b.readp = 0 := by rw [← hfull, hwn, Nat.mod_self]
        unfold RingBuffer.size
        rw [hr']
        have h2 : b.writep + n - 0 = (n - 1) + n := by omega
        rw [h2, Nat.add_mod_right, Nat.mod_eq_of_lt (by omega)]
  · intro hfull
    have hpush : (b.Push v).writep = (b.writep + 1) % n ∧ (b.Push v).readp = b.readp := by
      simp only [RingBuffer.Push]
      rw [if_neg hfull]
      exact ⟨rfl, rfl⟩
    unfold RingBuffer.size
    rw [hpush.1, hpush.2]
    rcases le_or_lt b.readp b.writep with hle | hlt
    · have hsz : (b.writep + n - b.readp) % n = b.writep - b.readp := by
        have h2 : b.writep + n - b.readp = (b.writep - b.readp) + n := by omega
        rw [h2, Nat.add_mod_right, Nat.mod_eq_of_lt (by omega)]
      rw [hsz]
      by_cases h1 : b.writep + 1 < n
      · rw [Nat.mod_eq_of_lt h1]
        have h2 : b.writep + 1 + n - b.readp = (b.writep + 1 - b.readp) + n := by omega
        rw [h2, Nat.add_mod_right, Nat.mod_eq_of_lt (by omega)]
        omega
      · have hwn : b.writep + 1 = n := by omega
        have hz : (b.writep + 1) % n = 0 := by rw [hwn, Nat.mod_self]
        rw [hz]
        have hrne : b.readp ≠ 0 := by
          intro h0
          exact hfull (by rw [hz, h0])
        rw [Nat.mod_eq_of_lt (by omega)]
        omega
    · have hsz : (b.writep + n - b.readp) % n = b.writep + n - b.readp :=
        Nat.mod_eq_of_lt (by omega)
      rw [hsz]
      by_cases h1 : b.writep + 1 < n
      · rw [Nat.mod_eq_of_lt h1]
        have hne : b.writep + 1 ≠ b.readp := by
          intro h0
          exact hfull (by rw [← h0, Nat.mod_eq_of_lt h1])
        rw [Nat.mod_eq_of_lt (by omega)]
        omega
      · omega
  · intro hempty
    simp [RingBuffer.Pop, hempty]
  · have h2 : b.size < n := Nat.mod_lt _ hn
    omega

/-- C10 witness: on a concrete full buffer with n = 3, readp = 0, writep = 2,
a push is dropped and the occupancy is 2 = n - 1. -/
theorem RingBuffer.push_full_drop_pop_empty_default_witness :
    ((2 + 1) % 3 = 0 →
      RingBuffer.Push (⟨fun _ => 0, 0, 2⟩ : RingBuffer 3 Nat) 7
          = (⟨fun _ => 0, 0, 2⟩ : RingBuffer 3 Nat) ∧
      RingBuffer.size (⟨fun _ => 0, 0, 2⟩ : RingBuffer 3 Nat) = 3 - 1) ∧
    ((2 + 1) % 3 ≠ 0 →
      (RingBuffer.Push (⟨fun _ => 0, 0, 2⟩ : RingBuffer 3 Nat) 7).size
          = RingBuffer.size (⟨fun _ => 0, 0, 2⟩ : RingBuffer 3 Nat) + 1) ∧
    ((⟨fun _ => 0, 0, 2⟩ : RingBuffer 3 Nat).IsEmpty = true →
      RingBuffer.Pop (⟨fun _ => 0, 0, 2⟩ : RingBuffer 3 Nat)
          = (default, (⟨fun _ => 0, 0, 2⟩ : RingBuffer 3 Nat))) ∧
    RingBuffer.size (⟨fun _ => 0, 0, 2⟩ : RingBuffer 3 Nat) ≤ 3 - 1 :=
  RingBuffer.push_full_drop_pop_empty_default 3 ⟨fun _ => 0, 0, 2⟩ 7
    (by decide) (by decide) (by decide)

/-- Helper: ExpandHeap succeeds exactly when the adjusted watermark stays in
[0, heap.map_size], and then stores the adjusted value. -/
theorem ExecutionContext.expandHeap_ok (ctx : ExecutionContext) (d : Int)
    (h0 : 0 ≤ (ctx.heap_used_size : Int) + d)
    (h1 : (ctx.heap_used_size : Int) + d ≤ (ctx.map_info.heap.map_size : Int)) :
    ctx.ExpandHeap d
      = .ok { ctx with heap_used_size := ((ctx.heap_used_size : Int) + d).toNat } := by
  simp only [ExecutionContext.ExpandHeap]
  rw [if_neg (by omega), if_neg (by omega)]

/-- Helper: a violating ExpandHeap call fails with HEAP_OVERFLOW when the
adjusted watermark exceeds heap.map_size and with HEAP_UNDERFLOW when it is
negative. -/
theorem ExecutionContext.expandHeap_err (ctx : ExecutionContext) (d : Int)
    (h : ¬(0 ≤ (ctx.heap_used_size : Int) + d ∧
        (ctx.heap_used_size : Int) + d ≤ (ctx.map_info.heap.map_size : Int))) :
    ctx.ExpandHeap d
      = .error (if (ctx.heap_used_size : Int) + d > (ctx.map_info.heap.map_size : Int)
          then .heapOverflow else .heapUnderflow) := by
  simp only [ExecutionContext.ExpandHeap]
  by_cases ho : (ctx.heap_used_size : Int) + d > (ctx.map_info.heap.map_size : Int)
  · rw [if_pos ho, if_pos ho]
  · rw [if_neg ho, if_pos (by omega), if_neg ho]

/-- Helper: a successful step stores the adjusted watermark. -/
theorem ExecutionContext.stepExpandHeap_ok (ctx : ExecutionContext) (d : Int)
    (h0 : 0 ≤ (ctx.heap_used_size : Int) + d)
    (h1 : (ctx.heap_used_size : Int) + d ≤ (ctx.map_info.heap.map_size : Int)) :
    ctx.stepExpandHeap d
      = { ctx with heap_used_size := ((ctx.heap_used_size : Int) + d).toNat } := by
  unfold ExecutionContext.stepExpandHeap
  rw [ExecutionContext.expandHeap_ok ctx d h0 h1]

/-- Helper: a violating step leaves the context unchanged. -/
theorem ExecutionContext.stepExpandHeap_err (ctx : ExecutionContext) (d : Int)
    (h : ¬(0 ≤ (ctx.heap_used_size : Int) + d ∧
        (ctx.heap_used_size : Int) + d ≤ (ctx.map_info.heap.map_size : Int))) :
    ctx.stepExpandHeap d = ctx := by
  unfold ExecutionContext.stepExpandHeap
  rw [ExecutionContext.expandHeap_err ctx d h]

/-- Helper: if every intermediate partial sum is in range, the run adds the
sum of the deltas to the watermark. -/
theorem ExecutionContext.runExpandHeap_sum (ds : List Int) (ctx : ExecutionContext)
    (h : heapDeltasOk ctx.map_info.heap.map_size (ctx.heap_used_size : Int) ds = true) :
    ((ctx.runExpandHeap ds).heap_used_size : Int) = (ctx.heap_used_size : Int) + ds.sum := by
  induction ds generalizing ctx with
  | nil => simp [ExecutionContext.runExpandHeap]
  | cons d r ih =>
    simp only [heapDeltasOk, Bool.and_eq_true, decide_eq_true_eq] at h
    obtain ⟨⟨h0, h1⟩, hr⟩ := h
    have hstep := ExecutionContext.stepExpandHeap_ok ctx d h0 h1
    have hrun : ctx.runExpandHeap (d :: r)
        = ExecutionContext.runExpandHeap (ctx.stepExpandHeap d) r := rfl
    have hc : ((ctx.stepExpandHeap d).heap_used_size : Int)
        = (ctx.heap_used_size : Int) + d := by
      rw [hstep]
      exact Int.toNat_of_nonneg h0
    have hm : (ctx.stepExpandHeap d).map_info = ctx.map_info := by rw [hstep]
    have hok : heapDeltasOk (ctx.stepExpandHeap d).map_info.heap.map_size
        ((ctx.stepExpandHeap d).heap_used_size : Int) r = true := by
      rw [hc, hm]
      exact hr
    rw [hrun, ih _ hok, hc, List.sum_cons]
    omega

/-- Helper: on the first violation, the violating call errors (overflow or
underflow as appropriate) and leaves the state unchanged. -/
theorem ExecutionContext.runExpandHeap_first_violation (ds : List Int)
    (ctx : ExecutionContext)
    (h : heapDeltasOk ctx.map_info.heap.map_size (ctx.heap_used_size : Int) ds = false) :
    ∃ pre d post, ds = pre ++ d :: post ∧
      heapDeltasOk ctx.map_info.heap.map_size (ctx.heap_used_size : Int) pre = true ∧
      (ctx.runExpandHeap pre).ExpandHeap d
        = .error (if ((ctx.runExpandHeap pre).heap_used_size : Int) + d
              > (ctx.map_info.heap.map_size : Int)
            then .heapOverflow else .heapUnderflow) ∧
      ctx.runExpandHeap (pre ++ [d]) = ctx.runExpandHeap pre := by
  induction ds generalizing ctx with
  | nil => simp [heapDeltasOk] at h
  | cons d r ih =>
    by_cases hfirst : 0 ≤ (ctx.heap_used_size : Int) + d ∧
        (ctx.heap_used_size : Int) + d ≤ (ctx.map_info.heap.map_size : Int)
    · have hstep := ExecutionContext.stepExpandHeap_ok ctx d hfirst.1 hfirst.2
      have hc : ((ctx.stepExpandHeap d).heap_used_size : Int)
          = (ctx.heap_used_size : Int) + d := by
        rw [hstep]
        exact Int.toNat_of_nonneg hfirst.1
      have hm : (ctx.stepExpandHeap d).map_info = ctx.map_info := by rw [hstep]
      have hr : heapDeltasOk (ctx.stepExpandHeap d).map_info.heap.map_size
          ((ctx.stepExpandHeap d).heap_used_size : Int) r = false := by
        rw [hc, hm]
        simp only [heapDeltasOk, Bool.and_eq_true, decide_eq_true_eq,
          Bool.and_eq_false_iff, decide_eq_false_iff_not] at h ⊢
        rcases h with h | h
        · rcases h with h | h
          · exact absurd hfirst.1 h
          · exact absurd hfirst.2 h
        · exact h
      obtain ⟨pre, d', post, heq, hpre, herr, hunch⟩ := ih _ hr
      refine ⟨d :: pre, d', post, ?_, ?_, ?_, ?_⟩
      · rw [List.cons_append, heq]
      · simp only [heapDeltasOk, Bool.and_eq_true, decide_eq_true_eq]
        refine ⟨⟨hfirst.1, hfirst.2⟩, ?_⟩
        rw [← hc]
        have := hpre
        rw [hm] at this
        exact this
      · have hrun : ctx.runExpandHeap (d :: pre)
            = ExecutionContext.runExpandHeap (ctx.stepExpandHeap d) pre := rfl
        rw [hrun]
        rw [hm] at herr
        exact herr
      · have hrun1 : ctx.runExpandHeap ((d :: pre) ++ [d'])
            = ExecutionContext.runExpandHeap (ctx.stepExpandHeap d) (pre ++ [d']) := rfl
        have hrun2 : ctx.runExpandHeap (d :: pre)
            = ExecutionContext.runExpandHeap (ctx.stepExpandHeap d) pre := rfl
        rw [hrun1, hrun2, hunch]
    · refine ⟨[], d, r, rfl, rfl, ?_, ?_⟩
      · exact ExecutionContext.expandHeap_err ctx d hfirst
      · show ctx.stepExpandHeap d = ctx
        exact ExecutionContext.stepExpandHeap_err ctx d hfirst

/-- C5 counterexample: with heap.map_size = 3 and initial heap_used_size = 0,
the delta sequence [5, -5] violates the bound (the first partial sum 5
exceeds 3, so the first call fails with HEAP_OVERFLOW), yet the final
heap_used_size (0, both calls rejected) still equals the sum of the deltas
(0). Hence "final equals the sum if and only if no intermediate partial sum
violates" is false as stated. -/
theorem ExecutionContext.expandHeap_sum_iff_counterexample :
    ¬ ((((ExecutionContext.runExpandHeap
            ⟨⟨0, 0, 0, 0, 2, 0, 0⟩,
             ⟨⟨0, 0, 0, []⟩, ⟨0, 0, 0, []⟩, ⟨0, 0, 0, []⟩, ⟨0, 5, 3, [0, 0, 0]⟩⟩,
             0, 0⟩ [5, -5]).heap_used_size : Int)
          = ([5, -5] : List Int).sum) ↔
       heapDeltasOk 3 0 [5, -5] = true) := by
  decide

/-- C5 (amended): for every sequence of ExpandHeap deltas applied to a
context with heap_used_size = 0, if no intermediate partial sum exceeds
heap.map_size or goes negative then the final heap_used_size equals the sum
of the deltas; and whenever some prefix violates the bounds, the first
violating call fails — with HEAP_OVERFLOW if the adjusted watermark exceeds
heap.map_size and HEAP_UNDERFLOW if it goes negative — and leaves
heap_used_size (indeed the whole context) unchanged. (Unlike the original
claim, the converse of the first implication does not hold: after a rejected
call the final counter can coincidentally equal the sum.) -/
theorem ExecutionContext.expandHeap_bounds (ctx : ExecutionContext) (ds : List Int)
    (h0 : ctx.heap_used_size = 0) :
    (heapDeltasOk ctx.map_info.heap.map_size 0 ds = true →
        ((ctx.runExpandHeap ds).heap_used_size : Int) = ds.sum) ∧
    (heapDeltasOk ctx.map_info.heap.map_size 0 ds = false →
        ∃ pre d post, ds = pre ++ d :: post ∧
          heapDeltasOk ctx.map_info.heap.map_size 0 pre = true ∧
          (ctx.runExpandHeap pre).ExpandHeap d
            = .error (if ((ctx.runExpandHeap pre).heap_used_size : Int) + d
                  > (ctx.map_info.heap.map_size : Int)
                then .heapOverflow else .heapUnderflow) ∧
          ctx.runExpandHeap (pre ++ [d]) = ctx.runExpandHeap pre) := by
  have hz : (ctx.heap_used_size : Int) = 0 := by rw [h0]; rfl
  constructor
  · intro h
    have := ExecutionContext.runExpandHeap_sum ds ctx (by rw [hz]; exact h)
    rw [hz] at this
    omega
  · intro h
    have := ExecutionContext.runExpandHeap_first_violation ds ctx (by rw [hz]; exact h)
    rw [hz] at this
    exact this

/-- C5 witness: a context with heap.map_size = 4096 and deltas [4096, -1]:
every partial sum stays in range and the final watermark is 4095. -/
theorem ExecutionContext.expandHeap_bounds_witness :
    (heapDeltasOk 4096 0 [4096, -1] = true →
        ((ExecutionContext.runExpandHeap
            ⟨⟨0, 0, 0, 0, 2, 0, 0⟩,
             ⟨⟨0, 0, 0, []⟩, ⟨0, 0, 0, []⟩, ⟨0, 0, 0, []⟩, ⟨0, 5, 4096, []⟩⟩,
             0, 0⟩ [4096, -1]).heap_used_size : Int)
          = ([4096, -1] : List Int).sum) ∧
    (heapDeltasOk 4096 0 [4096, -1] = false →
        ∃ pre d post, ([4096, -1] : List Int) = pre ++ d :: post ∧
          heapDeltasOk 4096 0 pre = true ∧
          (ExecutionContext.runExpandHeap
            ⟨⟨0, 0, 0, 0, 2, 0, 0⟩,
             ⟨⟨0, 0, 0, []⟩, ⟨0, 0, 0, []⟩, ⟨0, 0, 0, []⟩, ⟨0, 5, 4096, []⟩⟩,
             0, 0⟩ pre).ExpandHeap d
            = .error (if ((ExecutionContext.runExpandHeap
                  ⟨⟨0, 0, 0, 0, 2, 0, 0⟩,
                   ⟨⟨0, 0, 0, []⟩, ⟨0, 0, 0, []⟩, ⟨0, 0, 0, []⟩, ⟨0, 5, 4096, []⟩⟩,
                   0, 0⟩ pre).heap_used_size : Int) + d > (4096 : Int)
                then .heapOverflow else .heapUnderflow) ∧
          ExecutionContext.runExpandHeap
            ⟨⟨0, 0, 0, 0, 2, 0, 0⟩,
             ⟨⟨0, 0, 0, []⟩, ⟨0, 0, 0, []⟩, ⟨0, 0, 0, []⟩, ⟨0, 5, 4096, []⟩⟩,
             0, 0⟩ (pre ++ [d])
            = ExecutionContext.runExpandHeap
            ⟨⟨0, 0, 0, 0, 2, 0, 0⟩,
             ⟨⟨0, 0, 0, []⟩, ⟨0, 0, 0, []⟩, ⟨0, 0, 0, []⟩, ⟨0, 5, 4096, []⟩⟩,
             0, 0⟩ pre) :=
  ExecutionContext.expandHeap_bounds
    ⟨⟨0, 0, 0, 0, 2, 0, 0⟩,
     ⟨⟨0, 0, 0, []⟩, ⟨0, 0, 0, []⟩, ⟨0, 0, 0, []⟩, ⟨0, 5, 4096, []⟩⟩,
     0, 0⟩ [4096, -1] rfl

/-- Helper: for a < 2n, a mod n is a or a - n. -/
theorem mod_of_lt_two_mul (n a : Nat) (h : a < 2 * n) :
    a % n = if a < n then a else a - n := by
  split_ifs with h1
  · exact Nat.mod_eq_of_lt h1
  · rw [Nat.mod_eq_sub_mod (by omega), Nat.mod_eq_of_lt (by omega)]

/-- Helper: one full cycle of the round-robin index function hits each
residue exactly once. -/
theorem count_mod_block (n c j : Nat) (hn : 0 < n) (hj : j < n) :
    ((List.range n).map (fun i => (c + i) % n)).count j = 1 := by
  have hfe : (fun i => (c + i) % n) = fun i => (c % n + i) % n := by
    funext i
    rw [Nat.mod_add_mod]
  rw [hfe]
  have hc : c % n < n := Nat.mod_lt _ hn
  have hnd : ((List.range n).map (fun i => (c % n + i) % n)).Nodup := by
    refine List.Nodup.map_on ?_ (List.nodup_range n)
    intro x hx y hy hf
    rw [List.mem_range] at hx hy
    rw [mod_of_lt_two_mul n (c % n + x) (by omega),
      mod_of_lt_two_mul n (c % n + y) (by omega)] at hf
    split_ifs at hf <;> omega
  have hmem : j ∈ (List.range n).map (fun i => (c % n + i) % n) := by
    rw [List.mem_map]
    refine ⟨if c % n ≤ j then j - c % n else n + j - c % n, List.mem_range.mpr ?_, ?_⟩
    · split_ifs <;> omega
    · split_ifs with hle
      · have h1 : c % n + (j - c % n) = j := by omega
        rw [h1, Nat.mod_eq_of_lt hj]
      · have h1 : c % n + (n + j - c % n) = n + j := by omega
        rw [h1, Nat.add_mod_left, Nat.mod_eq_of_lt hj]
  exact List.count_eq_one_of_mem hnd hmem

/-- Helper: over a window of n*k steps, the round-robin index function hits
each residue exactly k times. -/
theorem count_mod_cycle (n c j : Nat) (hn : 0 < n) (hj : j < n) (k : Nat) :
    ((List.range (n * k)).map (fun i => (c + i) % n)).count j = k := by
  induction k with
  | zero => simp
  | succ k ih =>
    have h1 : n * (k + 1) = n * k + n := by ring
    rw [h1, List.range_add, List.map_append, List.count_append, ih]
    rw [List.map_map]
    have hfe : ((fun i => (c + i) % n) ∘ (fun i => n * k + i))
        = fun i => (c + n * k + i) % n := by
      funext i
      show (c + (n * k + i)) % n = (c + n * k + i) % n
      exact congrArg (fun x => x % n) (by omega)
    rw [hfe, count_mod_block n (c + n * k) j hn hj]

/-- Helper: with every process schedulable, findNext selects the index right
after the current one, cyclically. -/
theorem Scheduler.findNext_all_schedulable (s : Scheduler)
    (hn : 0 < s.procs.length)
    (hall : ∀ p ∈ s.procs, p.isSchedulable = true) :
    s.findNext = some ((s.current + 1) % s.procs.length) := by
  obtain ⟨m, hm⟩ : ∃ m, s.procs.length = m + 1 := ⟨s.procs.length - 1, by omega⟩
  have h1 : List.range s.procs.length = 0 :: List.map Nat.succ (List.range m) := by
    rw [hm, List.range_succ_eq_map]
  have hlt : (s.current + 1) % s.procs.length < s.procs.length := Nat.mod_lt _ hn
  have hsched : (s.procs.getD ((s.current + 1) % s.procs.length)
      .notInitialized).isSchedulable = true := by
    rw [List.getD_eq_getElem s.procs .notInitialized hlt]
    exact hall _ (List.getElem_mem hlt)
  unfold Scheduler.findNext
  rw [h1, List.map_cons, Nat.add_zero]
  simp only [Scheduler.findNextAux, hsched, if_true]

/-- Helper: with every process schedulable, one SwitchProcess selects
(current + 1) mod n, keeps the table length, and keeps every process
schedulable. -/
theorem Scheduler.switchProcess_all_schedulable (s : Scheduler)
    (hn : 0 < s.procs.length)
    (hall : ∀ p ∈ s.procs, p.isSchedulable = true) :
    s.SwitchProcess.2 = some ((s.current + 1) % s.procs.length) ∧
    s.SwitchProcess.1.current = (s.current + 1) % s.procs.length ∧
    s.SwitchProcess.1.procs.length = s.procs.length ∧
    (∀ p ∈ s.SwitchProcess.1.procs, p.isSchedulable = true) := by
  have hfind := Scheduler.findNext_all_schedulable s hn hall
  unfold Scheduler.SwitchProcess
  rw [hfind]
  refine ⟨rfl, rfl, ?_, ?_⟩
  · show (List.length _) = _
    simp only [List.length_set, apply_ite List.length]
    split_ifs <;> rfl
  · intro p hp
    rcases List.mem_or_eq_of_mem_set hp with hp1 | rfl
    · split_ifs at hp1 with hout
      · rcases List.mem_or_eq_of_mem_set hp1 with hp2 | rfl
        · exact hall p hp2
        · rfl
      · exact hall p hp1
    · rfl

/-- Helper: with every process schedulable, m switches select the cyclic
sequence of indices following the current one. -/
theorem Scheduler.switchSelections_all_schedulable (m : Nat) :
    ∀ s : Scheduler, 0 < s.procs.length →
    (∀ p ∈ s.procs, p.isSchedulable = true) →
    s.switchSelections m
      = (List.range m).map (fun i => (s.current + 1 + i) % s.procs.length) := by
  induction m with
  | zero =>
    intro s _ _
    rfl
  | succ m ih =>
    intro s hn hall
    have hsw := Scheduler.switchProcess_all_schedulable s hn hall
    show (match s.SwitchProcess with
      | (_, none) => []
      | (s', some j) => j :: s'.switchSelections m)
      = (List.range (m + 1)).map (fun i => (s.current + 1 + i) % s.procs.length)
    rcases hsp : s.SwitchProcess with ⟨s', r⟩
    rw [hsp] at hsw
    rcases r with _ | j
    · exact absurd hsw.1 (by simp)
    · have hj : j = (s.current + 1) % s.procs.length := by
        have h2 := hsw.1
        simpa using h2
      have hlen : s'.procs.length = s.procs.length := hsw.2.2.1
      have hcur : s'.current = (s.current + 1) % s.procs.length := hsw.2.1
      have hall' : ∀ p ∈ s'.procs, p.isSchedulable = true := hsw.2.2.2
      show j :: s'.switchSelections m = _
      have hihs := ih s' (by rw [hlen]; exact hn) hall'
      rw [hihs, hlen, hcur, hj]
      rw [List.range_succ_eq_map, List.map_cons, List.map_map]
      congr 1
      apply List.map_congr_left
      intro i _
      show ((s.current + 1) % s.procs.length + 1 + i) % s.procs.length
          = (s.current + 1 + Nat.succ i) % s.procs.length
      rw [Nat.add_assoc, Nat.mod_add_mod]
      exact congrArg (fun x => x % s.procs.length)
        (show s.current + 1 + (1 + i) = s.current + 1 + Nat.succ i by omega)

/-- C8: round-robin scheduling. switch_process selects the next Running/Ready
process in cyclic insertion order, so (i) over any window of n*k consecutive
switches in which all n registered processes stay schedulable, every process
is selected exactly k times, and (ii) in the S4 scenario — processes A (index
1) and B (index 2) registered and Ready while the root process (index 0) is
blocked waiting — six consecutive switch_process calls select the sequence
A, B, A, B, A, B. -/
theorem Scheduler.switchProcess_round_robin :
    (∀ (s : Scheduler) (k j : Nat),
        0 < s.procs.length →
        (∀ p ∈ s.procs, p.isSchedulable = true) →
        j < s.procs.length →
        (s.switchSelections (s.procs.length * k)).count j = k) ∧
    Scheduler.switchSelections ⟨[.sleeping, .ready, .ready], 0⟩ 6
      = [1, 2, 1, 2, 1, 2] := by
  constructor
  · intro s k j hn hall hj
    rw [Scheduler.switchSelections_all_schedulable _ s hn hall]
    exact count_mod_cycle s.procs.length (s.current + 1) j hn hj k
  · decide

/-- C8 witness: with two Ready processes and current at index 1, a window of
2*3 switches selects process 0 exactly 3 times; and the concrete S4 run. -/
theorem Scheduler.switchProcess_round_robin_witness :
    (Scheduler.switchSelections ⟨[.ready, .ready], 1⟩ (2 * 3)).count 0 = 3 ∧
    Scheduler.switchSelections ⟨[.sleeping, .ready, .ready], 0⟩ 6
      = [1, 2, 1, 2, 1, 2] := by
  refine ⟨?_, Scheduler.switchProcess_round_robin.2⟩
  exact Scheduler.switchProcess_round_robin.1 ⟨[.ready, .ready], 1⟩ 3 0
    (by decide) (by decide) (by decide)
